import Mathlib

/-!
Verification of the statsd client library (Go) against its specification.

The development shallowly embeds the library's core, following the source:

* the wire-format encoder of `lockedBuf` (`appendBucket`, `appendNumber`,
  `appendType`, `appendRate`, `closeMetric`, `metric`, `gauge`, `unique`);
* the connection / flush logic of the double-buffer generation (`flush`,
  `flushIfBufferFull`, `switchBufNum`, `releaseBuf`, `releaseBufFlush`,
  `lockBuf`), with the transport (dial / write outcomes) supplied by an
  explicit environment of results;
* the slot ownership state machine as a labelled transition system over
  interleavings of the atomic (CAS) steps;
* the superseded lockfree-queue generation (`conn.Put`, `Client.Count`,
  `Client.Close`) for the close-contract claims.

Bytes are modelled as `List Char` (the wire format is ASCII text).
Go machine integers appear only as rendered decimal strings, so signed
values are embedded as `Int` and unsigned ones as `Nat`; `float32/float64`
values are embedded as exact decimals `m * 10^(-e)` (every binary float
equals such a decimal) and `strconv.AppendFloat(_, 'f', -1, _)` is
modelled as fixed-point decimal rendering of that exact value.
-/

namespace Statsd

/-- A well-formed metric-line body: the bytes of one metric before its
terminating newline. It is nonempty and contains no newline byte. -/

def WFb (l : List Char) : Prop := l ≠ [] ∧ '\n' ∉ l

instance : DecidablePred WFb := fun l => by
  unfold WFb; infer_instance

/-- The byte sequence of a list of metric-line bodies, each terminated by
a newline: the contents of a buffer slot holding complete metric lines. -/

def linesBytes : List (List Char) → List Char
  | [] => []
  | l :: ls => l ++ '\n' :: linesBytes ls

/-- Split a byte sequence at the newline bytes, one list entry per
terminated line (a trailing unterminated fragment becomes a final entry). -/

def splitLines : List Char → List (List Char)
  | [] => []
  | c :: cs =>
    if c = '\n' then [] :: splitLines cs
    else
      match splitLines cs with
      | [] => [[c]]
      | l :: ls => (c :: l) :: ls

/-- Tag format enumeration: no tags, InfluxDB-style (tags before the
value separator) or Datadog-style (tags before the line terminator). -/

inductive TagFormat
  | none
  | influxDB
  | datadog
deriving DecidableEq

/-- The dynamic type of a Go metric value: one constructor per numeric
kind of the `appendNumber` / `isNegative` type switches, plus `vOther`
for every other dynamic type (which no switch case matches). Signed
integer kinds carry `Int`, unsigned kinds carry `Nat`; float kinds carry
the exact decimal `m * 10^(-e)` equal to the binary float. -/

inductive Value
  | vInt (n : Int)
  | vUint (n : Nat)
  | vInt64 (n : Int)
  | vUint64 (n : Nat)
  | vInt32 (n : Int)
  | vUint32 (n : Nat)
  | vInt16 (n : Int)
  | vUint16 (n : Nat)
  | vInt8 (n : Int)
  | vUint8 (n : Nat)
  | vFloat64 (m : Int) (e : Nat)
  | vFloat32 (m : Int) (e : Nat)
  | vOther
deriving DecidableEq

/-- Decimal digits of a natural number, most significant first, with an
accumulator (models the output of `strconv.AppendUint`). Structural
recursion on a fuel bound so that the kernel can evaluate it; the fuel
`n + 1` always suffices because `n / 10` strictly decreases. -/

def natDigitsFuel : Nat → Nat → List Char → List Char
  | 0, _, acc => acc
  | fuel + 1, n, acc =>
    if n < 10 then Char.ofNat (48 + n % 10) :: acc
    else natDigitsFuel fuel (n / 10) (Char.ofNat (48 + n % 10) :: acc)

/-- Decimal rendering of a natural number (`strconv.AppendUint`). -/

def natDigits (n : Nat) : List Char := natDigitsFuel (n + 1) n []

/-- Decimal rendering of a signed integer (`strconv.AppendInt`):
a leading minus sign for negative values. -/

def intStr (m : Int) : List Char :=
  if m < 0 then '-' :: natDigits m.natAbs else natDigits m.toNat

/-- Exactly `e` decimal digits of `a % 10^e`, zero padded, most
significant first (the fraction digits of a fixed-point rendering). -/

def padDigits (a : Nat) : Nat → List Char
  | 0 => []
  | e + 1 => padDigits (a / 10) e ++ [Char.ofNat (48 + a % 10)]

/-- Fixed-point decimal rendering of the exact value `m * 10^(-e)`
(models `strconv.AppendFloat(_, 'f', -1, _)` on a float whose exact
decimal expansion is `m * 10^(-e)`). -/

def decStr (m : Int) (e : Nat) : List Char :=
  let a := m.natAbs
  let sign : List Char := if m < 0 then ['-'] else []
  if e = 0 then sign ++ natDigits a
  else sign ++ natDigits (a / 10 ^ e) ++ '.' :: padDigits (a % 10 ^ e) e

/-- The bytes `appendNumber` appends for a value: the decimal rendering
for the twelve supported numeric kinds, and nothing at all for any other
dynamic type (the Go type switch has no default case). -/

def valStr : Value → List Char
  | .vInt n => intStr n
  | .vUint n => natDigits n
  | .vInt64 n => intStr n
  | .vUint64 n => natDigits n
  | .vInt32 n => intStr n
  | .vUint32 n => natDigits n
  | .vInt16 n => intStr n
  | .vUint16 n => natDigits n
  | .vInt8 n => intStr n
  | .vUint8 n => natDigits n
  | .vFloat64 m e => decStr m e
  | .vFloat32 m e => decStr m e
  | .vOther => []

/-- Source `appendNumber`: appends the decimal rendering of a supported
numeric value to the buffer; appends nothing for an unsupported type. -/

def appendNumber (buf : List Char) (v : Value) : List Char := buf ++ valStr v

/-- Source `isNegative`: the type switch returns `n < 0` per numeric
kind. On the unsigned kinds the Go comparison `n < 0` is constantly
false, and for a type no case matches the function returns false. -/

def isNegative : Value → Bool
  | .vInt n => decide (n < 0)
  | .vUint _ => false
  | .vInt64 n => decide (n < 0)
  | .vUint64 _ => false
  | .vInt32 n => decide (n < 0)
  | .vUint32 _ => false
  | .vInt16 n => decide (n < 0)
  | .vUint16 _ => false
  | .vInt8 n => decide (n < 0)
  | .vUint8 _ => false
  | .vFloat64 m _ => decide (m < 0)
  | .vFloat32 m _ => decide (m < 0)
  | .vOther => false

/-- The mathematical value of a supported metric value is negative
(`vOther` carries no number and counts as not negative). -/

def Value.isNeg : Value → Prop
  | .vInt n => n < 0
  | .vUint _ => False
  | .vInt64 n => n < 0
  | .vUint64 _ => False
  | .vInt32 n => n < 0
  | .vUint32 _ => False
  | .vInt16 n => n < 0
  | .vUint16 _ => False
  | .vInt8 n => n < 0
  | .vUint8 _ => False
  | .vFloat64 m _ => m < 0
  | .vFloat32 m _ => m < 0
  | .vOther => False

/-- Type suffix for counters (`metric.go`). -/

def COUNT_S : List Char := ['|', 'c']

/-- Type suffix for gauges (`metric.go`). -/

def GAUGE_S : List Char := ['|', 'g']

/-- Type suffix for timings (`metric.go`). -/

def TIMINGS_S : List Char := ['|', 'm', 's']

/-- Type suffix for histograms (`metric.go`). -/

def HISTOGRAM_S : List Char := ['|', 'h']

/-- Type suffix for sets (`metric.go`). -/

def SET_S : List Char := ['|', 's']

/-- Source `appendString` / `appendByte`: plain buffer append. -/

def appendString (buf s : List Char) : List Char := buf ++ s

/-- Source `appendBucket`: prefix, bucket, the tags when the tag format
is InfluxDB, then the `:` separator. -/

def appendBucket (buf pfx bkt tags : List Char) (tagFormat : TagFormat) :
    List Char :=
  (if tagFormat = TagFormat.influxDB
    then appendString (appendString buf pfx) bkt ++ tags
    else appendString (appendString buf pfx) bkt) ++ [':']

/-- Source `appendType`. -/

def appendType (buf t : List Char) : List Char := appendString buf t

/-- A sample rate: a `float32`, embedded as the exact decimal
`m * 10^(-e)` it denotes. -/

structure Rate where
  m : Int
  e : Nat
deriving DecidableEq

/-- The Go comparison `rate == 1` on the embedded exact decimal. -/

def Rate.isOne (r : Rate) : Bool := decide (r.m = 10 ^ r.e)

/-- The always-send sample rate `1`. -/

def rate1 : Rate := ⟨1, 0⟩

/-- Source `appendRate`: nothing when the rate is `1`, otherwise `|@`
followed by the rate's decimal rendering. The `rateCache` map only
memoizes the rendered string; the appended bytes are identical on a
cache hit and a cache miss, so the cache is byte-transparent and is not
modelled. -/

def appendRate (buf : List Char) (r : Rate) : List Char :=
  if r.isOne then buf
  else appendString (appendString buf ['|', '@']) (decStr r.m r.e)

/-- Source `closeMetric`: the tags when the tag format is Datadog, then
the line terminator. -/

def closeMetric (buf tags : List Char) (tagFormat : TagFormat) : List Char :=
  (if tagFormat = TagFormat.datadog then appendString buf tags else buf)
    ++ ['\n']

/-- Source `lockedBuf` pipeline of `conn.metric`: bucket, number, type,
rate, close. Used for Count, Timing and Histogram records. -/

def metricBytes (tagFormat : TagFormat) (pfx bkt : List Char) (v : Value)
    (typ : List Char) (r : Rate) (tags buf : List Char) : List Char :=
  closeMetric
    (appendRate (appendType (appendNumber (appendBucket buf pfx bkt tags tagFormat) v) typ) r)
    tags tagFormat

/-- Source `appendGauge`: number, gauge suffix, close — no rate. -/

def appendGauge (buf : List Char) (v : Value) (tags : List Char)
    (tagFormat : TagFormat) : List Char :=
  closeMetric (appendType (appendNumber buf v) GAUGE_S) tags tagFormat

/-- Source `conn.gauge`: a negative value is preceded by a full line
setting the gauge to `0` (the Go literal `0` is an `int`). -/

def gaugeBytes (tagFormat : TagFormat) (pfx bkt : List Char) (v : Value)
    (tags buf : List Char) : List Char :=
  let buf1 :=
    if isNegative v then
      appendGauge (appendBucket buf pfx bkt tags tagFormat) (Value.vInt 0)
        tags tagFormat
    else buf
  appendGauge (appendBucket buf1 pfx bkt tags tagFormat) v tags tagFormat

/-- Source `conn.unique`: bucket, the raw string value, set suffix,
close — no rate. -/

def uniqueBytes (tagFormat : TagFormat) (pfx bkt sval tags buf : List Char) :
    List Char :=
  closeMetric
    (appendType (appendString (appendBucket buf pfx bkt tags tagFormat) sval) SET_S)
    tags tagFormat

/-- Metric kind enumeration of `metric.go` (note: no Set constructor —
sets are sent through `conn.unique` directly, not as records). -/

inductive MType
  | COUNT
  | GAUGE
  | TIMINGS
  | HISTOGRAM
deriving DecidableEq

/-- A metric record (`metric.go`). -/

structure Metric where
  mtype : MType
  bucket : List Char
  pfx : List Char
  tags : List Char
  value : Value
  rate : Rate

/-- The encoder dispatch on a metric record (the type switch of
`conn.Get` / the per-kind `conn` methods): Count, Timing and Histogram
lines carry the rate; Gauge lines never do. -/

def encodeRecord (tagFormat : TagFormat) (m : Metric) (buf : List Char) :
    List Char :=
  match m.mtype with
  | .COUNT => metricBytes tagFormat m.pfx m.bucket m.value COUNT_S m.rate m.tags buf
  | .GAUGE => gaugeBytes tagFormat m.pfx m.bucket m.value m.tags buf
  | .TIMINGS => metricBytes tagFormat m.pfx m.bucket m.value TIMINGS_S m.rate m.tags buf
  | .HISTOGRAM => metricBytes tagFormat m.pfx m.bucket m.value HISTOGRAM_S m.rate m.tags buf

/-- The `[|@<rate> if rate != 1]` part of the spec's layout. -/

def rateSuffix (r : Rate) : List Char :=
  if r.isOne then [] else '|' :: '@' :: decStr r.m r.e

/-- Modelled from the spec: the wire-line layout
`<prefix><bucket>[tags if InfluxDB]:<value><type-suffix>[|@<rate> if rate!=1][tags if Datadog]\n`,
written as one flat concatenation, to be compared with the encoder built
from the source's append pipeline. -/

def specLine (tagFormat : TagFormat) (pfx bkt tags val typ rs : List Char) :
    List Char :=
  pfx ++ bkt ++ (if tagFormat = TagFormat.influxDB then tags else []) ++
    ':' :: (val ++ typ ++ rs ++
      (if tagFormat = TagFormat.datadog then tags else []) ++ ['\n'])

instance : DecidablePred Value.isNeg := fun v => by
  cases v <;> simp only [Value.isNeg] <;> infer_instance

/-- The concrete record refuting C1 as stated: a Gauge with value `-1`. -/

def c1m : Metric :=
  { mtype := MType.GAUGE, bucket := ['b'], pfx := ['p', '.'],
    tags := [], value := Value.vInt (-1), rate := rate1 }

/-- The concrete record refuting C9 as stated: a Count whose dynamic
value type is not one of the twelve numeric kinds. -/

def c9m : Metric :=
  { mtype := MType.COUNT, bucket := ['b'], pfx := [], tags := [],
    value := Value.vOther, rate := rate1 }

/-- Slot lock state: the `BUF_UNLOCKED` / `BUF_LOCK_WRITE` /
`BUF_NEED_FLUSH` int32 constants of the source. -/

inductive LockSt
  | unlocked
  | lockWrite
  | needFlush
deriving DecidableEq

/-- Source `lockedBuf`: a byte buffer guarded by an atomic lock state. -/

structure BufSlot where
  locked : LockSt
  data : List Char
deriving DecidableEq

/-- Transport environment: the outcomes of successive dial attempts and
successive write attempts. -/

structure Env where
  dials : List Bool
  writeOks : List Bool
deriving DecidableEq

/-- Consume the next dial outcome (success once exhausted). -/

def Env.nextDial : Env → Bool × Env
  | ⟨[], ws⟩ => (true, ⟨[], ws⟩)
  | ⟨b :: bs, ws⟩ => (b, ⟨bs, ws⟩)

/-- Consume the next write outcome (success once exhausted). -/

def Env.nextWrite : Env → Bool × Env
  | ⟨ds, []⟩ => (true, ⟨ds, []⟩)
  | ⟨ds, b :: bs⟩ => (b, ⟨ds, bs⟩)

/-- The double-buffer connection state (source `conn`, second
generation): configuration, the transport handle (`w = true` iff a live
handle is present), the two slots, the active index, the flush-request
channel contents, and the log of transport write payloads. -/

structure Conn where
  maxPacketSize : Nat
  isStream : Bool
  flushPeriodPos : Bool
  tagFormat : TagFormat
  w : Bool
  bufs : Fin 2 → BufSlot
  activeBuf : Fin 2
  writes : List (List Char)
  flushChan : List (Fin 2)

/-- The slot at an index. -/

def Conn.slot (c : Conn) (i : Fin 2) : BufSlot := c.bufs i

/-- Replace the slot at an index. -/

def Conn.setSlot (c : Conn) (i : Fin 2) (s : BufSlot) : Conn :=
  { c with bufs := fun j => if j = i then s else c.bufs j }

/-- The other slot index (`bufNum + 1` wrapping to `0`). -/

def nextBuf (i : Fin 2) : Fin 2 := ⟨(i.val + 1) % 2, by omega⟩

/-- Source `lockBuf`, one successful acquisition: the CAS
`UNLOCKED → LOCK_WRITE` on the slot the active index points at. `none`
models the producer still spinning (no sequential progress). -/

def lockBuf (c : Conn) : Option (Fin 2 × Conn) :=
  let i := c.activeBuf
  if (c.slot i).locked = LockSt.unlocked then
    some (i, c.setSlot i { c.slot i with locked := LockSt.lockWrite })
  else none

/-- Source `releaseBuf`: the CAS `LOCK_WRITE → UNLOCKED`. -/

def releaseBuf (c : Conn) (i : Fin 2) : Conn :=
  if (c.slot i).locked = LockSt.lockWrite then
    c.setSlot i { c.slot i with locked := LockSt.unlocked }
  else c

/-- Source `switchBufNum`: the CAS `LOCK_WRITE → NEED_FLUSH` by the slot
owner, then the CAS advancing the active index off this slot. -/

def switchBufNum (c : Conn) (i : Fin 2) : Conn :=
  if (c.slot i).locked = LockSt.lockWrite then
    let c1 := c.setSlot i { c.slot i with locked := LockSt.needFlush }
    if c1.activeBuf = i then { c1 with activeBuf := nextBuf i } else c1
  else c

/-- Source `releaseBufFlush`: truncate the slot to the first `n` bytes
when it holds more, then the CAS `NEED_FLUSH → UNLOCKED`. -/

def releaseBufFlush (c : Conn) (i : Fin 2) (n : Nat) : Conn :=
  let s := c.slot i
  let d := if s.data.length > n then s.data.take n else s.data
  let st := if s.locked = LockSt.needFlush then LockSt.unlocked else s.locked
  c.setSlot i { locked := st, data := d }

/-- The tail-compaction and release at the end of source `flush`: on a
final write error the handle is closed and set absent; bytes beyond the
consumed prefix are copied to the front of the slot
(`copy(data, data[n:])` leaves the bytes past the tail in place, and the
release then truncates to the tail length); the slot is released. -/

def compactRelease (c : Conn) (i : Fin 2) (n : Nat) : Conn :=
  let d := (c.slot i).data
  let tailLen := d.length - n
  let c2 :=
    if 0 < tailLen then c.setSlot i { c.slot i with data := d.drop n ++ d.drop tailLen }
    else c
  releaseBufFlush c2 i tailLen

/-- On a final write error the handle is closed and set absent, then the
tail is compacted and the slot released. -/

def flushFinish (c : Conn) (i : Fin 2) (n : Nat) (err : Bool) : Conn :=
  compactRelease (if err then { c with w := false } else c) i n

/-- Source `flush` (double-buffer generation): flush the first `n0`
bytes of slot `i` (`n0 = 0` means the whole buffer). An empty slot is
just released. If the handle is absent, a failed dial clears the slot
(`releaseBufFlush(bufNum, 0)`, "clear buffer for prevent overflow") and
reports the error. A stream transport writes `data[:n]`, retrying once
through a redial on failure (a failed redial also clears the slot); a
datagram transport writes `data[:n-1]` (the trailing newline stripped).
Finally the tail is compacted and the slot released. -/

def flush (c : Conn) (env : Env) (n0 : Nat) (i : Fin 2) : Conn × Env × Bool :=
  let d := (c.slot i).data
  if d.length = 0 then (releaseBufFlush c i 0, env, false)
  else
    let n := if n0 = 0 then d.length else n0
    let dialRes : Conn × Env × Bool :=
      if c.w then (c, env, true)
      else
        match env.nextDial with
        | (ok, env1) => ({ c with w := ok }, env1, ok)
    match dialRes with
    | (c1, env1, dialOk) =>
      if dialOk = false then (releaseBufFlush c1 i 0, env1, true)
      else
        if c1.isStream then
          match env1.nextWrite with
          | (ok1, env2) =>
            let c2 := { c1 with writes := c1.writes ++ [d.take n] }
            if ok1 then (flushFinish c2 i n false, env2, false)
            else
              match env2.nextDial with
              | (dok, env3) =>
                if dok = false then
                  (releaseBufFlush { c2 with w := false } i 0, env3, true)
                else
                  match env3.nextWrite with
                  | (ok2, env4) =>
                    let c3 := { c2 with w := true, writes := c2.writes ++ [d.take n] }
                    (flushFinish c3 i n (!ok2), env4, !ok2)
        else
          match env1.nextWrite with
          | (ok, env2) =>
            let c2 := { c1 with writes := c1.writes ++ [d.take (n - 1)] }
            (flushFinish c2 i n (!ok), env2, !ok)

/-- Source `flushIfBufferFull`: when the slot holds at least
`maxPacketSize` bytes, rotate it out with `switchBufNum` and either hand
it to the scheduler through the flush channel (when a flush period is
configured) or flush the pre-append prefix synchronously; otherwise just
release the write lock. -/

def flushIfBufferFull (c : Conn) (env : Env) (lastSafeLen : Nat) (i : Fin 2) :
    Conn × Env :=
  if c.maxPacketSize ≤ (c.slot i).data.length then
    let c1 := switchBufNum c i
    if c1.flushPeriodPos then ({ c1 with flushChan := c1.flushChan ++ [i] }, env)
    else
      match flush c1 env lastSafeLen i with
      | (c2, env2, _) => (c2, env2)
  else (releaseBuf c i, env)

/-- Source `conn.metric`: lock the active slot, append one encoded line
into it, then `flushIfBufferFull` with the pre-append length as the safe
flush boundary. -/

def sendMetric (c : Conn) (env : Env) (pfx bkt : List Char) (v : Value)
    (typ : List Char) (r : Rate) (tags : List Char) : Conn × Env :=
  match lockBuf c with
  | Option.none => (c, env)
  | some (i, c1) =>
    let l := (c1.slot i).data.length
    let c2 := c1.setSlot i
      { c1.slot i with
        data := metricBytes c1.tagFormat pfx bkt v typ r tags (c1.slot i).data }
    flushIfBufferFull c2 env l i

/-- A base connection for concrete witnesses: stream transport, live
handle, `maxPacketSize = 40`, empty unlocked slots, no scheduler loop. -/

def baseConn : Conn :=
  { maxPacketSize := 40, isStream := true, flushPeriodPos := false,
    tagFormat := TagFormat.none, w := true,
    bufs := fun _ => { locked := LockSt.unlocked, data := [] },
    activeBuf := 0, writes := [], flushChan := [] }

/-- The C6 counterexample connection: no live handle, slot 0 rotated out
holding one complete line. -/

def c6conn : Conn :=
  { maxPacketSize := 40, isStream := true, flushPeriodPos := false,
    tagFormat := TagFormat.none, w := false,
    bufs := fun j =>
      if j = 0 then { locked := LockSt.needFlush, data := "a:1|c\n".toList }
      else { locked := LockSt.unlocked, data := [] },
    activeBuf := 1, writes := [], flushChan := [] }

/-- An environment whose (only) dial attempt fails. -/

def c6env : Env := ⟨[false], []⟩

/-- The C2 scenario connection: `maxPacketSize = 40`, stream transport,
no scheduler run loop (`flushPeriod = 0`), live handle, empty slots. -/

def c2conn : Conn :=
  { maxPacketSize := 40, isStream := true, flushPeriodPos := false,
    tagFormat := TagFormat.none, w := true,
    bufs := fun _ => { locked := LockSt.unlocked, data := [] },
    activeBuf := 0, writes := [], flushChan := [] }

/-- An environment in which every transport operation succeeds. -/

def envOk : Env := ⟨[], []⟩

/-- One C2 producer step: send a Count metric encoding to exactly the
10-byte line `aaaaa:1|c\n`. -/

def c2send (ce : Conn × Env) : Conn × Env :=
  sendMetric ce.1 ce.2 [] ['a', 'a', 'a', 'a', 'a'] (Value.vInt 1) COUNT_S rate1 []

/-- The C2 scenario after `k` sequential sends. -/

def c2run : Nat → Conn × Env
  | 0 => (c2conn, envOk)
  | k + 1 => c2send (c2run k)

/-- The 10-byte encoded line of the C2 scenario. -/

def c2line : List Char := "aaaaa:1|c\n".toList

/-- The queue-generation connection state: the closed flag, the metric
queue, the wire buffer and the transport write log. -/

structure QConn where
  maxQueued : Nat
  closed : Bool
  q : List Metric
  buf : List Char
  writes : List (List Char)
  tagFormat : TagFormat

/-- The bounded lockfree queue `Put` as used by `conn.Put`: a full queue
drops its two oldest elements (`c.q.Get()` twice) and puts again. -/

def qPut (maxQueued : Nat) (q : List Metric) (m : Metric) : List Metric :=
  if q.length < maxQueued then q ++ [m]
  else q.drop 2 ++ [m]

/-- Source `conn.Put`: enqueue unconditionally and return nil — the
`closed` flag is never consulted. -/

def QConn.put (c : QConn) (m : Metric) : QConn :=
  { c with q := qPut c.maxQueued c.q m }

/-- Source `Client.Count` at sampling rate `1`: `skip()` is true only
for a muted client (`rate != 1 && randFloat() > rate` is false at rate
1); otherwise a COUNT record is built and handed to `conn.Put`. The
`closed` flag plays no part. -/

def clientCount (muted : Bool) (pfx tags : List Char) (c : QConn)
    (bucket : List Char) (v : Value) : QConn :=
  if muted then c
  else c.put
    { mtype := MType.COUNT, bucket := bucket, pfx := pfx, tags := tags,
      value := v, rate := rate1 }

/-- Source `Client.Unique` at sampling rate `1`: encodes directly into
the connection buffer through `conn.unique`, again without consulting
`closed`. -/

def clientUnique (muted : Bool) (pfx tags : List Char) (c : QConn)
    (bucket sval : List Char) : QConn :=
  if muted then c
  else { c with buf := uniqueBytes c.tagFormat pfx bucket sval tags c.buf }

/-- Source `Client.Close`: a muted client returns at once; otherwise
only `conn.closed` is set — queues and buffers are left to the ticker
goroutine. -/

def clientClose (muted : Bool) (c : QConn) : QConn :=
  if muted then c else { c with closed := true }

/-- The C5 counterexample start state: a fresh, open connection. -/

def c5conn : QConn :=
  { maxQueued := 1024, closed := false, q := [], buf := [], writes := [],
    tagFormat := TagFormat.none }

/-- One slot of the interleaving model. -/

structure DSlot where
  st : LockSt
  owner : Option Nat
  data : List (List Char)
  log : List (List Char)
  flushed : List (List Char)
deriving DecidableEq

/-- The interleaving model state. -/

structure DSys where
  slots : Fin 2 → DSlot
  active : Fin 2
  stream : List (List Char)
  maxPacket : Nat

/-- Replace one slot. -/

def DSys.setSlot (s : DSys) (i : Fin 2) (sl : DSlot) : DSys :=
  { s with slots := fun j => if j = i then sl else s.slots j }

/-- Effect of winning the `lockBuf` CAS on the active slot. -/

def lockEffect (s : DSys) (t : Nat) : DSys :=
  s.setSlot s.active
    { s.slots s.active with st := LockSt.lockWrite, owner := some t }

/-- Effect of appending lines under the lock and releasing below the
threshold (`releaseBuf`): slot back to `UNLOCKED`, owner cleared. -/

def appendReleaseEffect (s : DSys) (i : Fin 2) (lines : List (List Char)) : DSys :=
  s.setSlot i
    { st := LockSt.unlocked, owner := Option.none,
      data := (s.slots i).data ++ lines,
      log := (s.slots i).log ++ lines,
      flushed := (s.slots i).flushed }

/-- Effect of appending lines under the lock at or above the threshold
(`switchBufNum`): slot to `NEED_FLUSH` still owned by the writer, and
the active index rotated off the slot (the CAS succeeds only when the
index still points at it). -/

def appendSwitchEffect (s : DSys) (t : Nat) (i : Fin 2)
    (lines : List (List Char)) : DSys :=
  { slots := fun j =>
      if j = i then
        { st := LockSt.needFlush, owner := some t,
          data := (s.slots i).data ++ lines,
          log := (s.slots i).log ++ lines,
          flushed := (s.slots i).flushed }
      else s.slots j,
    active := if s.active = i then nextBuf i else s.active,
    stream := s.stream, maxPacket := s.maxPacket }

/-- Effect of `switchBufUnlocked` by the scheduler or a `Flush`/`Close`
caller: CAS the active slot `UNLOCKED → NEED_FLUSH` and rotate the
active index. -/

def switchUnlockedEffect (s : DSys) (t : Nat) : DSys :=
  { slots := fun j =>
      if j = s.active then
        { s.slots s.active with st := LockSt.needFlush, owner := some t }
      else s.slots j,
    active := nextBuf s.active,
    stream := s.stream, maxPacket := s.maxPacket }

/-- Effect of handing a rotated-out slot through the flush channel: the
ownership token moves from the producer to the scheduler. -/

def handoffEffect (s : DSys) (i : Fin 2) (u : Nat) : DSys :=
  s.setSlot i { s.slots i with owner := some u }

/-- Effect of the owner flushing a line-boundary prefix of `k` lines and
completing with `releaseBufFlush`: the lines join the transmitted
stream, the tail is compacted to the front, the slot unlocks. -/

def flushEffect (s : DSys) (i : Fin 2) (k : Nat) : DSys :=
  { slots := fun j =>
      if j = i then
        { st := LockSt.unlocked, owner := Option.none,
          data := (s.slots i).data.drop k,
          log := (s.slots i).log,
          flushed := (s.slots i).flushed ++ (s.slots i).data.take k }
      else s.slots j,
    active := s.active,
    stream := s.stream ++ (s.slots i).data.take k,
    maxPacket := s.maxPacket }

/-- One atomic step of the slot state machine, by thread `t` (or a
handoff from `t` to `u`). Guards are exactly the CAS preconditions. -/

inductive DStep : DSys → DSys → Prop
  | lock (s : DSys) (t : Nat)
      (h : (s.slots s.active).st = LockSt.unlocked) :
      DStep s (lockEffect s t)
  | appendRelease (s : DSys) (t : Nat) (i : Fin 2) (lines : List (List Char))
      (hst : (s.slots i).st = LockSt.lockWrite)
      (hown : (s.slots i).owner = some t)
      (hwf : ∀ l ∈ lines, WFb l)
      (hlen : (linesBytes ((s.slots i).data ++ lines)).length < s.maxPacket) :
      DStep s (appendReleaseEffect s i lines)
  | appendSwitch (s : DSys) (t : Nat) (i : Fin 2) (lines : List (List Char))
      (hst : (s.slots i).st = LockSt.lockWrite)
      (hown : (s.slots i).owner = some t)
      (hwf : ∀ l ∈ lines, WFb l)
      (hlen : s.maxPacket ≤ (linesBytes ((s.slots i).data ++ lines)).length) :
      DStep s (appendSwitchEffect s t i lines)
  | switchUnlocked (s : DSys) (t : Nat)
      (h : (s.slots s.active).st = LockSt.unlocked) :
      DStep s (switchUnlockedEffect s t)
  | handoff (s : DSys) (t u : Nat) (i : Fin 2)
      (hst : (s.slots i).st = LockSt.needFlush)
      (hown : (s.slots i).owner = some t) :
      DStep s (handoffEffect s i u)
  | flushStep (s : DSys) (t : Nat) (i : Fin 2) (k : Nat)
      (hst : (s.slots i).st = LockSt.needFlush)
      (hown : (s.slots i).owner = some t)
      (hk : k ≤ (s.slots i).data.length) :
      DStep s (flushEffect s i k)

/-- The initial state: both slots empty and unlocked. -/

def dInit (mp : Nat) : DSys :=
  { slots := fun _ =>
      { st := LockSt.unlocked, owner := Option.none,
        data := [], log := [], flushed := [] },
    active := 0, stream := [], maxPacket := mp }

/-- Reachability by interleaved steps. -/

def DReach (mp : Nat) (s : DSys) : Prop :=
  Relation.ReflTransGen DStep (dInit mp) s

/-- Slot-ownership consistency: a slot is unlocked exactly when it has
no owner; an owned slot records exactly the single winner of the CAS
that locked it. -/

def OwnerInv (s : DSys) : Prop :=
  ∀ i, (s.slots i).st = LockSt.unlocked ↔ (s.slots i).owner = Option.none

instance (s : DSys) : Decidable (OwnerInv s) := by
  unfold OwnerInv; infer_instance

/-- The conservation-and-integrity invariant behind claim C10: every
line ever accepted into a slot is either already flushed to the stream
or still buffered, in order; what each slot flushed is a subsequence of
the transmitted stream; and every transmitted or buffered line is a
well-formed metric line. -/

def StreamInv (s : DSys) : Prop :=
  (∀ i, (s.slots i).log = (s.slots i).flushed ++ (s.slots i).data) ∧
  (∀ i, List.Sublist (s.slots i).flushed s.stream) ∧
  (∀ l ∈ s.stream, WFb l) ∧
  (∀ i, ∀ l ∈ (s.slots i).data, WFb l)

instance (s : DSys) : Decidable (StreamInv s) := by
  unfold StreamInv; infer_instance

/-- First step of the C8 counterexample trace: thread 1 wins the
`lockBuf` CAS on slot 0. -/

def c8s1 : DSys := lockEffect (dInit 1) 1

/-- Second step: thread 1 appends a line reaching the threshold and
rotates slot 0 out (`switchBufNum`): slot 0 `NEED_FLUSH`, active = 1. -/

def c8s2 : DSys := appendSwitchEffect c8s1 1 0 [['a']]

/-- Third step: the scheduler's timer tick performs
`switchBufUnlocked` on slot 1 before slot 0 has been flushed: slot 1
also `NEED_FLUSH`, and the active index rotates back to slot 0. -/

def c8s3 : DSys := switchUnlockedEffect c8s2 2

/-! ## Theorems -/

theorem linesBytes_append (a b : List (List Char)) :
    linesBytes (a ++ b) = linesBytes a ++ linesBytes b := by
  induction a with
  | nil => rfl
  | cons l ls ih => simp [linesBytes, ih]

theorem splitLines_cons_body (l bs : List Char) (hl : '\n' ∉ l) :
    splitLines (l ++ '\n' :: bs) = l :: splitLines bs := by
  induction l with
  | nil => simp [splitLines]
  | cons c cs ih =>
    have hc : ¬ c = '\n' := by
      intro h; exact hl (by simp [h])
    have hcs : '\n' ∉ cs := by
      intro h; exact hl (by simp [h])
    simp only [List.cons_append, splitLines, if_neg hc, List.append_eq]
    rw [ih hcs]

/-- Splitting the byte sequence of newline-free line bodies recovers
exactly those bodies: every newline in the stream terminates exactly one
complete line. -/

theorem splitLines_linesBytes (L : List (List Char))
    (h : ∀ l ∈ L, '\n' ∉ l) :
    splitLines (linesBytes L) = L := by
  induction L with
  | nil => rfl
  | cons l ls ih =>
    have hl : '\n' ∉ l := h l (by simp)
    have hls : ∀ x ∈ ls, '\n' ∉ x := fun x hx => h x (by simp [hx])
    simp [linesBytes, splitLines_cons_body l _ hl, ih hls]

/-- The bytes of a nonempty list of well-formed lines end in a non-newline
byte immediately followed by the final newline. -/

theorem linesBytes_last (L : List (List Char)) (hne : L ≠ [])
    (h : ∀ l ∈ L, WFb l) :
    ∃ q c, linesBytes L = q ++ [c, '\n'] ∧ c ≠ '\n' := by
  induction L with
  | nil => exact absurd rfl hne
  | cons l ls ih =>
    cases ls with
    | nil =>
      obtain ⟨hl1, hl2⟩ := h l (by simp)
      refine ⟨l.dropLast, l.getLast hl1, ?_, ?_⟩
      · have h3 : l.dropLast ++ [l.getLast hl1] = l := List.dropLast_append_getLast hl1
        calc linesBytes [l] = l ++ ['\n'] := by simp [linesBytes]
          _ = (l.dropLast ++ [l.getLast hl1]) ++ ['\n'] := by rw [h3]
          _ = l.dropLast ++ [l.getLast hl1, '\n'] := by simp
      · intro hc
        exact hl2 (hc ▸ List.getLast_mem hl1)
    | cons m ms =>
      obtain ⟨q, c, hq, hc⟩ := ih (by simp)
        (fun x hx => h x (by simp at hx ⊢; tauto))
      refine ⟨l ++ '\n' :: q, c, ?_, hc⟩
      show l ++ '\n' :: linesBytes (m :: ms) = (l ++ '\n' :: q) ++ [c, '\n']
      rw [hq]
      simp

theorem isNegative_eq_isNeg (v : Value) : isNegative v = true ↔ v.isNeg := by
  cases v <;> simp [isNegative, Value.isNeg]

theorem digitChar_ne_nl (k : Nat) (h : k < 10) : Char.ofNat (48 + k) ≠ '\n' := by
  interval_cases k <;> decide

theorem natDigitsFuel_no_nl :
    ∀ (fuel n : Nat) (acc : List Char), '\n' ∉ acc → '\n' ∉ natDigitsFuel fuel n acc := by
  intro fuel
  induction fuel with
  | zero => intro n acc hacc; exact hacc
  | succ fuel ih =>
    intro n acc hacc
    by_cases h : n < 10
    · rw [natDigitsFuel, if_pos h]
      intro hmem
      rcases List.mem_cons.mp hmem with h1 | h1
      · exact digitChar_ne_nl (n % 10) (Nat.mod_lt _ (by omega)) h1.symm
      · exact hacc h1
    · rw [natDigitsFuel, if_neg h]
      refine ih (n / 10) _ ?_
      intro hmem
      rcases List.mem_cons.mp hmem with h1 | h1
      · exact digitChar_ne_nl (n % 10) (Nat.mod_lt _ (by omega)) h1.symm
      · exact hacc h1

theorem natDigitsFuel_ne_nil :
    ∀ (fuel n : Nat) (acc : List Char), acc ≠ [] → natDigitsFuel fuel n acc ≠ [] := by
  intro fuel
  induction fuel with
  | zero => intro n acc hacc; exact hacc
  | succ fuel ih =>
    intro n acc hacc
    by_cases h : n < 10
    · rw [natDigitsFuel, if_pos h]; simp
    · rw [natDigitsFuel, if_neg h]
      exact ih (n / 10) _ (by simp)

theorem natDigits_no_nl (n : Nat) : '\n' ∉ natDigits n :=
  natDigitsFuel_no_nl (n + 1) n [] (by simp)

theorem natDigits_ne_nil (n : Nat) : natDigits n ≠ [] := by
  unfold natDigits
  rw [natDigitsFuel]
  by_cases h : n < 10
  · rw [if_pos h]; simp
  · rw [if_neg h]
    exact natDigitsFuel_ne_nil _ _ _ (by simp)

theorem intStr_no_nl (m : Int) : '\n' ∉ intStr m := by
  unfold intStr
  by_cases h : m < 0
  · rw [if_pos h]
    intro hmem
    rcases List.mem_cons.mp hmem with h1 | h1
    · exact absurd h1 (by decide)
    · exact natDigits_no_nl _ h1
  · rw [if_neg h]; exact natDigits_no_nl _

theorem intStr_ne_nil (m : Int) : intStr m ≠ [] := by
  unfold intStr
  by_cases h : m < 0
  · rw [if_pos h]; simp
  · rw [if_neg h]; exact natDigits_ne_nil _

theorem padDigits_no_nl : ∀ (e a : Nat), '\n' ∉ padDigits a e := by
  intro e
  induction e with
  | zero => intro a; simp [padDigits]
  | succ e ih =>
    intro a
    rw [padDigits]
    intro hmem
    rcases List.mem_append.mp hmem with h1 | h1
    · exact ih (a / 10) h1
    · simp at h1
      exact digitChar_ne_nl (a % 10) (Nat.mod_lt _ (by omega)) h1.symm

theorem decStr_no_nl (m : Int) (e : Nat) : '\n' ∉ decStr m e := by
  unfold decStr
  by_cases he : e = 0
  · rw [if_pos he]
    intro hmem
    rcases List.mem_append.mp hmem with h1 | h1
    · by_cases hm : m < 0
      · rw [if_pos hm] at h1
        exact absurd (List.mem_singleton.mp h1) (by decide)
      · rw [if_neg hm] at h1; simp at h1
    · exact natDigits_no_nl _ h1
  · rw [if_neg he]
    intro hmem
    rcases List.mem_append.mp hmem with h1 | h1
    · rcases List.mem_append.mp h1 with h2 | h2
      · by_cases hm : m < 0
        · rw [if_pos hm] at h2
          exact absurd (List.mem_singleton.mp h2) (by decide)
        · rw [if_neg hm] at h2; simp at h2
      · exact natDigits_no_nl _ h2
    · rcases List.mem_cons.mp h1 with h2 | h2
      · exact absurd h2 (by decide)
      · exact padDigits_no_nl _ _ h2

theorem decStr_ne_nil (m : Int) (e : Nat) : decStr m e ≠ [] := by
  unfold decStr
  by_cases he : e = 0
  · rw [if_pos he]
    intro hmem
    rcases List.append_eq_nil.mp hmem with ⟨_, h2⟩
    exact natDigits_ne_nil _ h2
  · rw [if_neg he]
    intro hmem
    rcases List.append_eq_nil.mp hmem with ⟨h1, h2⟩
    rcases List.append_eq_nil.mp h1 with ⟨_, h3⟩
    exact natDigits_ne_nil _ h3

/-- The rendering of every supported numeric kind contains no newline. -/

theorem valStr_no_nl (v : Value) : '\n' ∉ valStr v := by
  cases v <;>
    simp only [valStr] <;>
    first
      | exact intStr_no_nl _
      | exact natDigits_no_nl _
      | exact decStr_no_nl _ _
      | simp

/-- The rendering of every supported numeric kind is nonempty; only the
unsupported `vOther` renders to nothing. -/

theorem valStr_ne_nil (v : Value) (h : v ≠ Value.vOther) : valStr v ≠ [] := by
  cases v <;>
    first
      | exact intStr_ne_nil _
      | exact natDigits_ne_nil _
      | exact decStr_ne_nil _ _
      | exact absurd rfl h

/-- A `specLine` built from newline-free parts contains exactly one
newline: it is exactly one complete line. -/

theorem specLine_count_nl (tagFormat : TagFormat)
    (pfx bkt tags val typ rs : List Char)
    (h1 : '\n' ∉ pfx) (h2 : '\n' ∉ bkt) (h3 : '\n' ∉ tags)
    (h4 : '\n' ∉ val) (h5 : '\n' ∉ typ) (h6 : '\n' ∉ rs) :
    (specLine tagFormat pfx bkt tags val typ rs).count '\n' = 1 := by
  unfold specLine
  simp only [List.count_append, List.count_cons]
  rw [List.count_eq_zero.mpr h1, List.count_eq_zero.mpr h2,
    List.count_eq_zero.mpr h4, List.count_eq_zero.mpr h5,
    List.count_eq_zero.mpr h6]
  have hz : ∀ tf' : TagFormat,
      (List.count '\n' (if tagFormat = tf' then tags else [])) = 0 := by
    intro tf'
    by_cases h : tagFormat = tf'
    · rw [if_pos h]; exact List.count_eq_zero.mpr h3
    · rw [if_neg h]; rfl
  rw [hz, hz]
  simp

/-- A rate suffix never contains a newline. -/

theorem rateSuffix_no_nl (r : Rate) : '\n' ∉ rateSuffix r := by
  unfold rateSuffix
  by_cases h : r.isOne
  · rw [if_pos h]; simp
  · rw [if_neg h]
    intro hmem
    rcases List.mem_cons.mp hmem with h1 | h1
    · exact absurd h1 (by decide)
    rcases List.mem_cons.mp h1 with h2 | h2
    · exact absurd h2 (by decide)
    · exact decStr_no_nl _ _ h2

/-- The Count/Timing/Histogram pipeline produces exactly the spec's
layout, appended after the given buffer. -/

theorem metricBytes_eq_specLine (tagFormat : TagFormat)
    (pfx bkt tags buf : List Char) (v : Value) (typ : List Char) (r : Rate) :
    metricBytes tagFormat pfx bkt v typ r tags buf =
      buf ++ specLine tagFormat pfx bkt tags (valStr v) typ (rateSuffix r) := by
  unfold metricBytes closeMetric appendRate appendType appendNumber
    appendBucket appendString specLine rateSuffix
  cases tagFormat <;> by_cases hr : Rate.isOne r <;> simp [hr]

/-- The Set pipeline (`conn.unique`) produces the spec's layout with the
raw string value and no rate suffix. -/

theorem uniqueBytes_eq_specLine (tagFormat : TagFormat)
    (pfx bkt sval tags buf : List Char) :
    uniqueBytes tagFormat pfx bkt sval tags buf =
      buf ++ specLine tagFormat pfx bkt tags sval SET_S [] := by
  unfold uniqueBytes closeMetric appendType appendBucket appendString specLine
  cases tagFormat <;> simp

/-- A Gauge with a non-negative value: a single layout line, no rate. -/

theorem gaugeBytes_nonneg (tagFormat : TagFormat)
    (pfx bkt tags buf : List Char) (v : Value) (hneg : isNegative v = false) :
    gaugeBytes tagFormat pfx bkt v tags buf =
      buf ++ specLine tagFormat pfx bkt tags (valStr v) GAUGE_S [] := by
  unfold gaugeBytes appendGauge closeMetric appendType appendNumber
    appendBucket appendString specLine
  rw [hneg]
  cases tagFormat <;> simp

/-- A Gauge with a negative value: the gauge-to-zero line followed by
the value line. -/

theorem gaugeBytes_neg (tagFormat : TagFormat)
    (pfx bkt tags buf : List Char) (v : Value) (hneg : isNegative v = true) :
    gaugeBytes tagFormat pfx bkt v tags buf =
      buf ++ specLine tagFormat pfx bkt tags (valStr (Value.vInt 0)) GAUGE_S [] ++
        specLine tagFormat pfx bkt tags (valStr v) GAUGE_S [] := by
  unfold gaugeBytes appendGauge closeMetric appendType appendNumber
    appendBucket appendString specLine
  rw [hneg]
  cases tagFormat <;> simp

/-- With tag format None the encoder never reads the record's tags. -/

theorem encodeRecord_none_tags_irrel (m : Metric) (buf : List Char) :
    encodeRecord TagFormat.none m buf =
      encodeRecord TagFormat.none { m with tags := [] } buf := by
  cases hm : m.mtype <;>
    unfold encodeRecord metricBytes gaugeBytes appendGauge closeMetric
      appendRate appendType appendNumber appendBucket appendString <;>
    simp [hm]

/-- C1 counterexample: for the Gauge record with value `-1` the encoder
appends two lines (the gauge-to-zero line first), not exactly one line
of the claimed form `<prefix><bucket>:<value>|g[|@rate]\n`. -/

theorem c1_counterexample :
    (encodeRecord TagFormat.none c1m []).count '\n' = 2 ∧
    encodeRecord TagFormat.none c1m [] ≠
      specLine TagFormat.none ['p', '.'] ['b'] []
        (valStr (Value.vInt (-1))) GAUGE_S (rateSuffix rate1) := by
  decide

/-- C1 amended: every encoded metric line has the claimed layout
`<prefix><bucket>[tags if InfluxDB]:<value><type-suffix>[rate][tags if Datadog]\n`
with suffixes `|c`, `|g`, `|ms`, `|h`, `|s`, and no tag text is injected
when the tag format is None — except that (a) only Count, Timing and
Histogram records carry the `|@<rate>` suffix (Gauge and Set lines never
do), and (b) a Gauge record with a negative value appends exactly two
such lines, the gauge-to-zero line followed by the value line. Each
output is appended after the given buffer, and with newline-free name
parts each emitted line contains exactly one newline. -/

theorem c1_amended (tagFormat : TagFormat) (pfx bkt tags : List Char)
    (v : Value) (r : Rate) (sval : List Char) (buf : List Char)
    (hp : '\n' ∉ pfx) (hb : '\n' ∉ bkt) (ht : '\n' ∉ tags) :
    (metricBytes tagFormat pfx bkt v COUNT_S r tags buf =
      buf ++ specLine tagFormat pfx bkt tags (valStr v) COUNT_S (rateSuffix r)) ∧
    (metricBytes tagFormat pfx bkt v TIMINGS_S r tags buf =
      buf ++ specLine tagFormat pfx bkt tags (valStr v) TIMINGS_S (rateSuffix r)) ∧
    (metricBytes tagFormat pfx bkt v HISTOGRAM_S r tags buf =
      buf ++ specLine tagFormat pfx bkt tags (valStr v) HISTOGRAM_S (rateSuffix r)) ∧
    (uniqueBytes tagFormat pfx bkt sval tags buf =
      buf ++ specLine tagFormat pfx bkt tags sval SET_S []) ∧
    (isNegative v = false →
      gaugeBytes tagFormat pfx bkt v tags buf =
        buf ++ specLine tagFormat pfx bkt tags (valStr v) GAUGE_S []) ∧
    (isNegative v = true →
      gaugeBytes tagFormat pfx bkt v tags buf =
        buf ++ specLine tagFormat pfx bkt tags (valStr (Value.vInt 0)) GAUGE_S [] ++
          specLine tagFormat pfx bkt tags (valStr v) GAUGE_S []) ∧
    (∀ m : Metric, encodeRecord TagFormat.none m buf =
      encodeRecord TagFormat.none { m with tags := [] } buf) ∧
    (specLine tagFormat pfx bkt tags (valStr v) COUNT_S (rateSuffix r)).count '\n' = 1 := by
  refine ⟨metricBytes_eq_specLine _ _ _ _ _ _ _ _,
    metricBytes_eq_specLine _ _ _ _ _ _ _ _,
    metricBytes_eq_specLine _ _ _ _ _ _ _ _,
    uniqueBytes_eq_specLine _ _ _ _ _ _,
    fun hneg => gaugeBytes_nonneg _ _ _ _ _ _ hneg,
    fun hneg => gaugeBytes_neg _ _ _ _ _ _ hneg,
    fun m => encodeRecord_none_tags_irrel m buf,
    specLine_count_nl _ _ _ _ _ _ _ hp hb ht (valStr_no_nl v)
      (by decide) (rateSuffix_no_nl r)⟩

/-- C1 amended, witness: the amended layout at a concrete Count record. -/

theorem c1_amended_witness :
    ('\n' ∉ ['p', '.'] ∧ '\n' ∉ ['b'] ∧ '\n' ∉ ([] : List Char)) ∧
    (metricBytes TagFormat.none ['p', '.'] ['b'] (Value.vInt 5) COUNT_S rate1 [] [] =
      [] ++ specLine TagFormat.none ['p', '.'] ['b'] []
        (valStr (Value.vInt 5)) COUNT_S (rateSuffix rate1)) :=
  ⟨by decide,
    (c1_amended TagFormat.none ['p', '.'] ['b'] [] (Value.vInt 5) rate1 [] []
      (by decide) (by decide) (by decide)).1⟩

/-- C4: encoding a Gauge record with a negative supported value appends
exactly the gauge-to-zero line followed by the value line; with a
nonnegative supported value (in particular, with a value of any unsigned
kind, which is never negative) it appends exactly the single value line.
Stated for every tag format; with tag format None the lines are exactly
`<prefix><bucket>:0|g\n` / `<prefix><bucket>:<V>|g\n`. -/

theorem c4_gauge_negative_two_lines (tagFormat : TagFormat)
    (pfx bkt tags buf : List Char) (v : Value) (hv : v ≠ Value.vOther) :
    (v.isNeg →
      gaugeBytes tagFormat pfx bkt v tags buf =
        buf ++ specLine tagFormat pfx bkt tags (valStr (Value.vInt 0)) GAUGE_S [] ++
          specLine tagFormat pfx bkt tags (valStr v) GAUGE_S []) ∧
    (¬ v.isNeg →
      gaugeBytes tagFormat pfx bkt v tags buf =
        buf ++ specLine tagFormat pfx bkt tags (valStr v) GAUGE_S []) ∧
    (∀ n : Nat, ¬ (Value.vUint64 n).isNeg) := by
  refine ⟨?_, ?_, fun n => by simp [Value.isNeg]⟩
  · intro hneg
    exact gaugeBytes_neg _ _ _ _ _ _ ((isNegative_eq_isNeg v).mpr hneg)
  · intro hpos
    refine gaugeBytes_nonneg _ _ _ _ _ _ ?_
    cases h : isNegative v
    · rfl
    · exact absurd ((isNegative_eq_isNeg v).mp h) hpos

/-- C4 witness: the two-line form at `V = -3` with prefix `p.`, and the
one-line form at an unsigned value. -/

theorem c4_witness :
    (Value.vInt (-3) ≠ Value.vOther ∧
      gaugeBytes TagFormat.none ['p', '.'] ['m'] (Value.vInt (-3)) [] [] =
        "p.m:0|g\np.m:-3|g\n".toList) ∧
    (Value.vUint 7 ≠ Value.vOther ∧
      gaugeBytes TagFormat.none ['p', '.'] ['m'] (Value.vUint 7) [] [] =
        "p.m:7|g\n".toList) := by
  constructor
  · refine ⟨by decide, ?_⟩
    have h := (c4_gauge_negative_two_lines TagFormat.none ['p', '.'] ['m'] [] []
      (Value.vInt (-3)) (by decide)).1 (by decide)
    rw [h]
    decide
  · refine ⟨by decide, ?_⟩
    have h := (c4_gauge_negative_two_lines TagFormat.none ['p', '.'] ['m'] [] []
      (Value.vUint 7) (by decide)).2.1 (by decide)
    rw [h]
    decide

/-- C9 counterexample: for a value of an unsupported dynamic type the
encoder does not reject or trap — `appendNumber` silently appends
nothing (the Go type switch has no default case) and the emitted line
`b:|c\n` has an empty value position between `:` and `|`. -/

theorem c9_counterexample :
    valStr Value.vOther = [] ∧
    encodeRecord TagFormat.none c9m [] = ['b', ':', '|', 'c', '\n'] := by
  decide

/-- C9 amended: the numeric rendering is exhaustive over the twelve
supported numeric kinds — for every supported value it appends a
nonempty decimal rendering — but for a value of any unsupported dynamic
type it appends nothing at all (no trap), so the value position of the
emitted line is left empty. -/

theorem c9_amended (buf : List Char) (v : Value) (h : v ≠ Value.vOther) :
    appendNumber buf v ≠ buf ∧ appendNumber buf Value.vOther = buf := by
  constructor
  · intro heq
    have hlen := congrArg List.length heq
    simp only [appendNumber, List.length_append] at hlen
    exact valStr_ne_nil v h (List.length_eq_zero.mp (by omega))
  · simp [appendNumber, valStr]

/-- C9 amended, witness at the supported value `int64 3`. -/

theorem c9_amended_witness :
    Value.vInt64 3 ≠ Value.vOther ∧
    (appendNumber [] (Value.vInt64 3) ≠ [] ∧
      appendNumber [] Value.vOther = []) :=
  ⟨by decide, c9_amended [] (Value.vInt64 3) (by decide)⟩

/-- What `flushFinish` does to the flushed slot: the slot ends holding
exactly the bytes beyond the consumed prefix, compacted to the front,
and unlocked; the handle survives iff there was no final write error;
nothing else changes. -/

theorem compactRelease_spec (c : Conn) (i : Fin 2) (n : Nat)
    (hlock : (c.bufs i).locked = LockSt.needFlush)
    (hn : n ≤ (c.bufs i).data.length) :
    ((compactRelease c i n).bufs i).data = (c.bufs i).data.drop n ∧
    ((compactRelease c i n).bufs i).locked = LockSt.unlocked ∧
    (compactRelease c i n).w = c.w ∧
    (compactRelease c i n).writes = c.writes ∧
    (compactRelease c i n).activeBuf = c.activeBuf := by
  simp only [compactRelease, releaseBufFlush, Conn.slot, Conn.setSlot]
  by_cases ht : 0 < (c.bufs i).data.length - n
  · have hdrop : ((c.bufs i).data.drop n).length = (c.bufs i).data.length - n :=
      List.length_drop _ _
    have hlenD : ((c.bufs i).data.drop n ++
        (c.bufs i).data.drop ((c.bufs i).data.length - n)).length =
        ((c.bufs i).data.length - n) + ((c.bufs i).data.length -
          ((c.bufs i).data.length - n)) := by
      rw [List.length_append, List.length_drop, List.length_drop]
    by_cases hz : 0 < n
    · have hgt : ((c.bufs i).data.drop n ++
          (c.bufs i).data.drop ((c.bufs i).data.length - n)).length >
          (c.bufs i).data.length - n := by
        rw [hlenD]; omega
      have htake : ((c.bufs i).data.drop n ++
          (c.bufs i).data.drop ((c.bufs i).data.length - n)).take
            ((c.bufs i).data.length - n) = (c.bufs i).data.drop n := by
        rw [← hdrop]; exact List.take_left _ _
      simp [ht, hgt, htake, hlock]
      intro hcon
      exact absurd (hcon (by omega)) (by omega)
    · have hz0 : n = 0 := by omega
      subst hz0
      have ht' : 0 < (c.bufs i).data.length := by omega
      have hnlt : ¬ ((c.bufs i).data.length < (c.bufs i).data.length) := by omega
      simp [ht', hnlt, hlock]
  · have hdropnil : (c.bufs i).data.drop n = [] := by
      apply List.eq_nil_of_length_eq_zero
      rw [List.length_drop]; omega
    by_cases hlen0 : (c.bufs i).data.length > (c.bufs i).data.length - n
    · have hz : (c.bufs i).data.length - n = 0 := by omega
      simp [ht, hz, hlen0, hlock, hdropnil]
    · have hl0 : (c.bufs i).data.length = 0 := by omega
      have hnil : (c.bufs i).data = [] := List.eq_nil_of_length_eq_zero hl0
      simp [ht, hlock, hnil]

/-- What `flushFinish` does to the flushed slot: the slot ends holding
exactly the bytes beyond the consumed prefix, compacted to the front,
and unlocked; the handle survives iff there was no final write error;
nothing else changes. -/

theorem flushFinish_spec (c : Conn) (i : Fin 2) (n : Nat) (err : Bool)
    (hlock : (c.slot i).locked = LockSt.needFlush)
    (hn : n ≤ (c.slot i).data.length) :
    ((flushFinish c i n err).bufs i).data = (c.slot i).data.drop n ∧
    ((flushFinish c i n err).bufs i).locked = LockSt.unlocked ∧
    (flushFinish c i n err).w = (c.w && !err) ∧
    (flushFinish c i n err).writes = c.writes ∧
    (flushFinish c i n err).activeBuf = c.activeBuf := by
  unfold Conn.slot at hlock hn
  unfold flushFinish
  cases herr : err
  · simp only [if_neg (Bool.false_ne_true)]
    have h := compactRelease_spec c i n hlock hn
    simpa [Conn.slot] using h
  · rw [if_pos rfl]
    have h := compactRelease_spec { c with w := false } i n hlock hn
    simpa [Conn.slot] using h

theorem releaseBufFlush_zero (c : Conn) (i : Fin 2)
    (hlock : (c.bufs i).locked = LockSt.needFlush)
    (hne : (c.bufs i).data ≠ []) :
    ((releaseBufFlush c i 0).bufs i).data = [] ∧
    ((releaseBufFlush c i 0).bufs i).locked = LockSt.unlocked ∧
    (releaseBufFlush c i 0).w = c.w ∧
    (releaseBufFlush c i 0).writes = c.writes ∧
    (releaseBufFlush c i 0).activeBuf = c.activeBuf := by
  have hpos : 0 < (c.bufs i).data.length := List.length_pos.mpr hne
  simp [releaseBufFlush, Conn.slot, Conn.setSlot, hlock, hpos]

/-- Complete characterization of one `flush` call on a rotated-out slot
with a live handle, by transport class and by the outcomes of the first
write (`w1`), the reconnect dial (`d1`) and the retried write (`w2`).
In every case the flushed slot ends unlocked; a datagram flush writes
`data[:n-1]` once; a stream flush writes `data[:n]` and on failure
redials exactly once and rewrites the same bytes exactly once (or stops
with the slot cleared when the redial fails); the handle survives iff
the final write succeeded. -/

theorem flush_cases (c : Conn) (n0 : Nat) (i : Fin 2)
    (d1 : Bool) (dls : List Bool) (w1 w2 : Bool) (wls : List Bool)
    (hw : c.w = true)
    (hlock : (c.slot i).locked = LockSt.needFlush)
    (hne : (c.slot i).data ≠ [])
    (hn0 : n0 ≤ (c.slot i).data.length) :
    (c.isStream = false →
      (flush c ⟨d1 :: dls, w1 :: w2 :: wls⟩ n0 i).1.writes =
        c.writes ++ [(c.slot i).data.take
          ((if n0 = 0 then (c.slot i).data.length else n0) - 1)] ∧
      ((flush c ⟨d1 :: dls, w1 :: w2 :: wls⟩ n0 i).1.bufs i).data =
        (c.slot i).data.drop (if n0 = 0 then (c.slot i).data.length else n0) ∧
      ((flush c ⟨d1 :: dls, w1 :: w2 :: wls⟩ n0 i).1.bufs i).locked = LockSt.unlocked ∧
      (flush c ⟨d1 :: dls, w1 :: w2 :: wls⟩ n0 i).1.w = w1 ∧
      (flush c ⟨d1 :: dls, w1 :: w2 :: wls⟩ n0 i).2 = (⟨d1 :: dls, w2 :: wls⟩, !w1)) ∧
    (c.isStream = true → w1 = true →
      (flush c ⟨d1 :: dls, w1 :: w2 :: wls⟩ n0 i).1.writes =
        c.writes ++ [(c.slot i).data.take (if n0 = 0 then (c.slot i).data.length else n0)] ∧
      ((flush c ⟨d1 :: dls, w1 :: w2 :: wls⟩ n0 i).1.bufs i).data =
        (c.slot i).data.drop (if n0 = 0 then (c.slot i).data.length else n0) ∧
      ((flush c ⟨d1 :: dls, w1 :: w2 :: wls⟩ n0 i).1.bufs i).locked = LockSt.unlocked ∧
      (flush c ⟨d1 :: dls, w1 :: w2 :: wls⟩ n0 i).1.w = true ∧
      (flush c ⟨d1 :: dls, w1 :: w2 :: wls⟩ n0 i).2 = (⟨d1 :: dls, w2 :: wls⟩, false)) ∧
    (c.isStream = true → w1 = false → d1 = true →
      (flush c ⟨d1 :: dls, w1 :: w2 :: wls⟩ n0 i).1.writes =
        c.writes ++
          [(c.slot i).data.take (if n0 = 0 then (c.slot i).data.length else n0),
           (c.slot i).data.take (if n0 = 0 then (c.slot i).data.length else n0)] ∧
      ((flush c ⟨d1 :: dls, w1 :: w2 :: wls⟩ n0 i).1.bufs i).data =
        (c.slot i).data.drop (if n0 = 0 then (c.slot i).data.length else n0) ∧
      ((flush c ⟨d1 :: dls, w1 :: w2 :: wls⟩ n0 i).1.bufs i).locked = LockSt.unlocked ∧
      (flush c ⟨d1 :: dls, w1 :: w2 :: wls⟩ n0 i).1.w = w2 ∧
      (flush c ⟨d1 :: dls, w1 :: w2 :: wls⟩ n0 i).2 = (⟨dls, wls⟩, !w2)) ∧
    (c.isStream = true → w1 = false → d1 = false →
      (flush c ⟨d1 :: dls, w1 :: w2 :: wls⟩ n0 i).1.writes =
        c.writes ++ [(c.slot i).data.take (if n0 = 0 then (c.slot i).data.length else n0)] ∧
      ((flush c ⟨d1 :: dls, w1 :: w2 :: wls⟩ n0 i).1.bufs i).data = [] ∧
      ((flush c ⟨d1 :: dls, w1 :: w2 :: wls⟩ n0 i).1.bufs i).locked = LockSt.unlocked ∧
      (flush c ⟨d1 :: dls, w1 :: w2 :: wls⟩ n0 i).1.w = false ∧
      (flush c ⟨d1 :: dls, w1 :: w2 :: wls⟩ n0 i).2 = (⟨dls, w2 :: wls⟩, true)) := by
  have hlen0 : ¬ ((c.slot i).data.length = 0) := fun h =>
    hne (List.eq_nil_of_length_eq_zero h)
  have hnle : (if n0 = 0 then (c.slot i).data.length else n0) ≤
      (c.slot i).data.length := by
    by_cases h : n0 = 0 <;> simp [h, hn0]
  refine ⟨?_, ?_, ?_, ?_⟩
  · intro hs
    have hfin := flushFinish_spec
      { c with writes := c.writes ++
          [(c.slot i).data.take ((if n0 = 0 then (c.slot i).data.length else n0) - 1)] }
      i (if n0 = 0 then (c.slot i).data.length else n0) (!w1)
      (by simpa [Conn.slot] using hlock) (by simpa [Conn.slot] using hnle)
    simp only [flush, hw, hlen0, hs, Env.nextWrite, Conn.slot] at hfin ⊢
    cases w1 <;> simp_all [Conn.slot]
  · intro hs hw1
    subst hw1
    have hfin := flushFinish_spec
      { c with writes := c.writes ++
          [(c.slot i).data.take (if n0 = 0 then (c.slot i).data.length else n0)] }
      i (if n0 = 0 then (c.slot i).data.length else n0) false
      (by simpa [Conn.slot] using hlock) (by simpa [Conn.slot] using hnle)
    simp only [flush, hw, hlen0, hs, Env.nextWrite, Conn.slot] at hfin ⊢
    simp_all [Conn.slot]
  · intro hs hw1 hd1
    subst hw1; subst hd1
    have hfin := flushFinish_spec
      { c with w := true, writes := c.writes ++
          [(c.slot i).data.take (if n0 = 0 then (c.slot i).data.length else n0),
           (c.slot i).data.take (if n0 = 0 then (c.slot i).data.length else n0)] }
      i (if n0 = 0 then (c.slot i).data.length else n0) (!w2)
      (by simpa [Conn.slot] using hlock) (by simpa [Conn.slot] using hnle)
    simp only [flush, hw, hlen0, hs, Env.nextWrite, Env.nextDial, Conn.slot] at hfin ⊢
    cases w2 <;> simp_all [Conn.slot]
  · intro hs hw1 hd1
    subst hw1; subst hd1
    have hrel := releaseBufFlush_zero
      { c with w := false, writes := c.writes ++
          [(c.slot i).data.take (if n0 = 0 then (c.slot i).data.length else n0)] }
      i (by simpa [Conn.slot] using hlock) (by simpa [Conn.slot] using hne)
    simp only [flush, hw, hlen0, hs, Env.nextWrite, Env.nextDial, Conn.slot] at hrel ⊢
    simp_all [Conn.slot]

theorem linesBytes_pos (L : List (List Char)) (h : L ≠ []) :
    0 < (linesBytes L).length := by
  cases L with
  | nil => exact absurd rfl h
  | cons l ls => simp [linesBytes]

/-- C3: for every flush that hands `n > 0` buffered bytes to a transport
write — the buffer being a concatenation of complete well-formed metric
lines and the flush boundary being a line boundary, which is how both
call sites (`flush(0)` for the whole buffer, `flush(lastSafeLen)` for
the pre-append prefix) invoke it — every payload handed to a stream
(`isStream`, i.e. non-`udp` network) write ends with the line
terminator, and every payload handed to a datagram write has the
trailing terminator stripped and ends in a non-newline byte. This holds
on every transport-outcome path, including the stream retry write. -/

theorem c3_datagram_strips_newline (c : Conn) (n0 : Nat) (i : Fin 2)
    (d1 : Bool) (dls : List Bool) (w1 w2 : Bool) (wls : List Bool)
    (K M : List (List Char))
    (hw : c.w = true)
    (hlock : (c.slot i).locked = LockSt.needFlush)
    (hdata : (c.slot i).data = linesBytes (K ++ M))
    (hK : K ≠ [])
    (hWF : ∀ l ∈ K ++ M, WFb l)
    (hn0 : (n0 = 0 ∧ M = []) ∨ n0 = (linesBytes K).length) :
    ∃ new, (flush c ⟨d1 :: dls, w1 :: w2 :: wls⟩ n0 i).1.writes = c.writes ++ new ∧
      new ≠ [] ∧
      ∀ p ∈ new,
        (c.isStream = true → ∃ q, p = q ++ ['\n']) ∧
        (c.isStream = false → ∃ q ch, p = q ++ [ch] ∧ ch ≠ '\n') := by
  have hWFK : ∀ l ∈ K, WFb l := fun l hl => hWF l (List.mem_append_left _ hl)
  have hne : (c.slot i).data ≠ [] := by
    rw [hdata, linesBytes_append]
    intro hnil
    rcases List.append_eq_nil.mp hnil with ⟨h1, _⟩
    have hpos := linesBytes_pos K hK
    rw [h1] at hpos
    simp at hpos
  have hn0le : n0 ≤ (c.slot i).data.length := by
    rcases hn0 with ⟨h1, _⟩ | h1
    · omega
    · rw [h1, hdata, linesBytes_append, List.length_append]; omega
  have hn : (if n0 = 0 then (c.slot i).data.length else n0) =
      (linesBytes K).length := by
    rcases hn0 with ⟨h1, h2⟩ | h1
    · subst h1; subst h2
      simp [hdata]
    · have : n0 ≠ 0 := by
        rw [h1]
        have := linesBytes_pos K hK
        omega
      rw [if_neg this, h1]
  have htaken : (c.slot i).data.take (linesBytes K).length = linesBytes K := by
    rw [hdata, linesBytes_append]
    exact List.take_left _ _
  obtain ⟨q, ch, hqc, hch⟩ := linesBytes_last K hK hWFK
  have hstream : linesBytes K = (q ++ [ch]) ++ ['\n'] := by
    rw [hqc]; simp
  have htakenm1 : (c.slot i).data.take ((linesBytes K).length - 1) = q ++ [ch] := by
    have hlenq : (linesBytes K).length - 1 = (q ++ [ch]).length := by
      rw [hqc]; simp
    rw [hlenq, hdata, linesBytes_append, hstream]
    rw [List.append_assoc]
    exact List.take_left _ _
  cases hs : c.isStream
  · obtain ⟨hA, hB, hC, hD⟩ :=
      flush_cases c n0 i d1 dls w1 w2 wls hw hlock hne hn0le
    refine ⟨[(c.slot i).data.take ((if n0 = 0 then (c.slot i).data.length else n0) - 1)],
      (hA hs).1, by simp, ?_⟩
    intro p hp
    rw [List.mem_singleton] at hp
    subst hp
    refine ⟨fun hcon => absurd hcon (by simp), fun _ => ?_⟩
    rw [hn, htakenm1]
    exact ⟨q, ch, rfl, hch⟩
  · cases hw1 : w1
    · cases hd1 : d1
      · obtain ⟨hA, hB, hC, hD⟩ :=
          flush_cases c n0 i false dls false w2 wls hw hlock hne hn0le
        refine ⟨[(c.slot i).data.take (if n0 = 0 then (c.slot i).data.length else n0)],
          (hD hs rfl rfl).1, by simp, ?_⟩
        intro p hp
        rw [List.mem_singleton] at hp
        subst hp
        refine ⟨fun _ => ?_, fun hcon => absurd hcon (by simp)⟩
        rw [hn, htaken, hstream]
        exact ⟨q ++ [ch], rfl⟩
      · obtain ⟨hA, hB, hC, hD⟩ :=
          flush_cases c n0 i true dls false w2 wls hw hlock hne hn0le
        refine ⟨[(c.slot i).data.take (if n0 = 0 then (c.slot i).data.length else n0),
          (c.slot i).data.take (if n0 = 0 then (c.slot i).data.length else n0)],
          (hC hs rfl rfl).1, by simp, ?_⟩
        intro p hp
        have hp2 : p = (c.slot i).data.take (if n0 = 0 then (c.slot i).data.length else n0) := by
          rcases List.mem_cons.mp hp with h1 | h1
          · exact h1
          · exact List.mem_singleton.mp h1
        subst hp2
        refine ⟨fun _ => ?_, fun hcon => absurd hcon (by simp)⟩
        rw [hn, htaken, hstream]
        exact ⟨q ++ [ch], rfl⟩
    · obtain ⟨hA, hB, hC, hD⟩ :=
        flush_cases c n0 i d1 dls true w2 wls hw hlock hne hn0le
      refine ⟨[(c.slot i).data.take (if n0 = 0 then (c.slot i).data.length else n0)],
        (hB hs rfl).1, by simp, ?_⟩
      intro p hp
      rw [List.mem_singleton] at hp
      subst hp
      refine ⟨fun _ => ?_, fun hcon => absurd hcon (by simp)⟩
      rw [hn, htaken, hstream]
      exact ⟨q ++ [ch], rfl⟩

/-- C3 witness: a concrete stream flush of one line writes a payload
ending in the terminator, and a concrete datagram flush of the same
line writes a payload ending in a non-newline byte. -/

theorem c3_witness :
    (baseConn.w = true ∧
      ((baseConn.setSlot 0 { locked := LockSt.needFlush, data := "a:1|c\n".toList }).slot 0).locked =
        LockSt.needFlush) ∧
    (∃ new,
      (flush (baseConn.setSlot 0 { locked := LockSt.needFlush, data := "a:1|c\n".toList })
          ⟨[true], [true, true]⟩ 0 0).1.writes =
        (baseConn.setSlot 0 { locked := LockSt.needFlush, data := "a:1|c\n".toList }).writes ++ new ∧
      new ≠ [] ∧
      ∀ p ∈ new,
        ((baseConn.setSlot 0 { locked := LockSt.needFlush, data := "a:1|c\n".toList }).isStream = true →
          ∃ q, p = q ++ ['\n']) ∧
        ((baseConn.setSlot 0 { locked := LockSt.needFlush, data := "a:1|c\n".toList }).isStream = false →
          ∃ q ch, p = q ++ [ch] ∧ ch ≠ '\n')) :=
  ⟨⟨rfl, by decide⟩,
    c3_datagram_strips_newline _ 0 0 true [] true true []
      ["a:1|c".toList] [] rfl (by decide) (by decide) (by decide)
      (fun l hl => by
        have hleq : l = "a:1|c".toList := by simpa using hl
        rw [hleq]
        decide)
      (Or.inl ⟨rfl, rfl⟩)⟩

/-- C6 counterexample: when the handle is absent and the dial fails, the
completing release clears the slot entirely (`releaseBufFlush(bufNum, 0)`,
"clear buffer for prevent overflow") although no transport write
consumed any bytes — buffered bytes beyond the consumed prefix (all of
them) are discarded. -/

theorem c6_counterexample :
    (flush c6conn c6env 0 0).1.writes = [] ∧
    ((flush c6conn c6env 0 0).1.bufs 0).data = [] ∧
    (c6conn.bufs 0).data ≠ [] := by
  decide

/-- C6 amended: on every flush whose transport path does not end in a
failed dial — a datagram write (successful or not), a successful stream
write, or a stream retry after a successful redial (successful or not) —
the completing release leaves the slot holding exactly the bytes beyond
the consumed prefix, compacted to the front, and transitions the slot
`NEEDS_FLUSH → UNLOCKED`. But when a dial fails (no handle and the dial
fails, or a stream write fails and the reconnect dial fails) the slot is
cleared entirely: all buffered bytes are discarded. -/

theorem c6_amended (c : Conn) (n0 : Nat) (i : Fin 2)
    (d1 : Bool) (dls : List Bool) (w1 w2 : Bool) (wls : List Bool)
    (hw : c.w = true)
    (hlock : (c.slot i).locked = LockSt.needFlush)
    (hne : (c.slot i).data ≠ [])
    (hn0 : n0 ≤ (c.slot i).data.length) :
    ((c.isStream = false ∨ w1 = true ∨ d1 = true) →
      ((flush c ⟨d1 :: dls, w1 :: w2 :: wls⟩ n0 i).1.bufs i).data =
        (c.slot i).data.drop (if n0 = 0 then (c.slot i).data.length else n0) ∧
      ((flush c ⟨d1 :: dls, w1 :: w2 :: wls⟩ n0 i).1.bufs i).locked = LockSt.unlocked) ∧
    (c.isStream = true → w1 = false → d1 = false →
      ((flush c ⟨d1 :: dls, w1 :: w2 :: wls⟩ n0 i).1.bufs i).data = [] ∧
      ((flush c ⟨d1 :: dls, w1 :: w2 :: wls⟩ n0 i).1.bufs i).locked = LockSt.unlocked) := by
  constructor
  · intro hor
    cases hs : c.isStream
    · obtain ⟨hA, hB, hC, hD⟩ :=
        flush_cases c n0 i d1 dls w1 w2 wls hw hlock hne hn0
      exact ⟨(hA hs).2.1, (hA hs).2.2.1⟩
    · cases hw1 : w1
      · cases hd1 : d1
        · rcases hor with h | h | h
          · exact absurd (hs.symm.trans h) (by simp)
          · exact absurd (hw1.symm.trans h) (by simp)
          · exact absurd (hd1.symm.trans h) (by simp)
        · obtain ⟨hA, hB, hC, hD⟩ :=
            flush_cases c n0 i true dls false w2 wls hw hlock hne hn0
          exact ⟨(hC hs rfl rfl).2.1, (hC hs rfl rfl).2.2.1⟩
      · obtain ⟨hA, hB, hC, hD⟩ :=
          flush_cases c n0 i d1 dls true w2 wls hw hlock hne hn0
        exact ⟨(hB hs rfl).2.1, (hB hs rfl).2.2.1⟩
  · intro hs hw1 hd1
    obtain ⟨hA, hB, hC, hD⟩ :=
      flush_cases c n0 i d1 dls w1 w2 wls hw hlock hne hn0
    exact ⟨(hD hs hw1 hd1).2.1, (hD hs hw1 hd1).2.2.1⟩

/-- C6 amended, witness: a concrete successful flush of two lines with
boundary after the first line retains exactly the second line. -/

theorem c6_amended_witness :
    ((baseConn.setSlot 0 { locked := LockSt.needFlush, data := "a:1|c\nb:2|c\n".toList }).w = true ∧
      6 ≤ ((baseConn.setSlot 0 { locked := LockSt.needFlush, data := "a:1|c\nb:2|c\n".toList }).slot 0).data.length) ∧
    (((flush (baseConn.setSlot 0 { locked := LockSt.needFlush, data := "a:1|c\nb:2|c\n".toList })
        ⟨[true], [true, true]⟩ 6 0).1.bufs 0).data = "b:2|c\n".toList ∧
      ((flush (baseConn.setSlot 0 { locked := LockSt.needFlush, data := "a:1|c\nb:2|c\n".toList })
        ⟨[true], [true, true]⟩ 6 0).1.bufs 0).locked = LockSt.unlocked) := by
  constructor
  · exact ⟨rfl, by decide⟩
  · have h := (c6_amended
      (baseConn.setSlot 0 { locked := LockSt.needFlush, data := "a:1|c\nb:2|c\n".toList })
      6 0 true [] true true [] rfl (by decide) (by decide) (by decide)).1
      (Or.inr (Or.inl rfl))
    have h2 := h.1
    have h3 := h.2
    constructor
    · rw [h2]; decide
    · exact h3

/-- C7: when a stream-transport write fails during a flush, exactly one
reconnect-and-retry is attempted — one redial followed by one rewrite of
the same byte payload — before the error is surfaced (the returned
error, which `flush` passes to the error handler), and never a second
retry; on an unrecoverable failure (the retried write also fails, or the
redial itself fails) the handle is closed and set absent, so the next
flush dials afresh. A successful first write performs no dial at all. -/

theorem c7_stream_single_retry (c : Conn) (n0 : Nat) (i : Fin 2)
    (d1 : Bool) (dls : List Bool) (w2 : Bool) (wls : List Bool)
    (hw : c.w = true)
    (hlock : (c.slot i).locked = LockSt.needFlush)
    (hne : (c.slot i).data ≠ [])
    (hn0 : n0 ≤ (c.slot i).data.length)
    (hs : c.isStream = true) :
    (d1 = true →
      (flush c ⟨d1 :: dls, false :: w2 :: wls⟩ n0 i).1.writes =
        c.writes ++
          [(c.slot i).data.take (if n0 = 0 then (c.slot i).data.length else n0),
           (c.slot i).data.take (if n0 = 0 then (c.slot i).data.length else n0)] ∧
      (flush c ⟨d1 :: dls, false :: w2 :: wls⟩ n0 i).2 = (⟨dls, wls⟩, !w2) ∧
      (flush c ⟨d1 :: dls, false :: w2 :: wls⟩ n0 i).1.w = w2) ∧
    (d1 = false →
      (flush c ⟨d1 :: dls, false :: w2 :: wls⟩ n0 i).1.writes =
        c.writes ++
          [(c.slot i).data.take (if n0 = 0 then (c.slot i).data.length else n0)] ∧
      (flush c ⟨d1 :: dls, false :: w2 :: wls⟩ n0 i).2 = (⟨dls, w2 :: wls⟩, true) ∧
      (flush c ⟨d1 :: dls, false :: w2 :: wls⟩ n0 i).1.w = false) ∧
    ((flush c ⟨d1 :: dls, true :: w2 :: wls⟩ n0 i).1.writes =
        c.writes ++
          [(c.slot i).data.take (if n0 = 0 then (c.slot i).data.length else n0)] ∧
      (flush c ⟨d1 :: dls, true :: w2 :: wls⟩ n0 i).2 = (⟨d1 :: dls, w2 :: wls⟩, false) ∧
      (flush c ⟨d1 :: dls, true :: w2 :: wls⟩ n0 i).1.w = true) := by
  obtain ⟨_, _, hC, hD⟩ :=
    flush_cases c n0 i d1 dls false w2 wls hw hlock hne hn0
  obtain ⟨_, hB', _, _⟩ :=
    flush_cases c n0 i d1 dls true w2 wls hw hlock hne hn0
  refine ⟨?_, ?_, ?_⟩
  · intro hd1
    obtain ⟨h1, h2, h3, h4, h5⟩ := hC hs rfl hd1
    exact ⟨h1, h5, h4⟩
  · intro hd1
    obtain ⟨h1, h2, h3, h4, h5⟩ := hD hs rfl hd1
    exact ⟨h1, h5, h4⟩
  · obtain ⟨h1, h2, h3, h4, h5⟩ := hB' hs rfl
    exact ⟨h1, h5, h4⟩

/-- C7 witness: a concrete stream flush whose first write fails, whose
redial succeeds and whose retry write also fails: two identical write
payloads, one dial consumed, error surfaced, handle absent. -/

theorem c7_witness :
    ((baseConn.setSlot 0 { locked := LockSt.needFlush, data := "a:1|c\n".toList }).w = true ∧
      (baseConn.setSlot 0 { locked := LockSt.needFlush, data := "a:1|c\n".toList }).isStream = true) ∧
    ((flush (baseConn.setSlot 0 { locked := LockSt.needFlush, data := "a:1|c\n".toList })
        ⟨[true], [false, false]⟩ 0 0).1.writes =
      (baseConn.setSlot 0 { locked := LockSt.needFlush, data := "a:1|c\n".toList }).writes ++
        ["a:1|c\n".toList, "a:1|c\n".toList] ∧
      (flush (baseConn.setSlot 0 { locked := LockSt.needFlush, data := "a:1|c\n".toList })
        ⟨[true], [false, false]⟩ 0 0).1.w = false) := by
  constructor
  · exact ⟨rfl, rfl⟩
  · have h := (c7_stream_single_retry
      (baseConn.setSlot 0 { locked := LockSt.needFlush, data := "a:1|c\n".toList })
      0 0 true [] false [] rfl (by decide) (by decide) (by decide) rfl).1 rfl
    constructor
    · rw [h.1]; decide
    · exact h.2.2

/-- C2 counterexample: with `maxPacketSize = 40` and five 10-byte
metrics, the claim's prediction — no flush on the fourth append and one
flushed write of exactly the first four lines (40 bytes) on the fifth —
is false: a write has already happened after the fourth append. -/

theorem c2_counterexample :
    ¬ ((c2run 4).1.writes = [] ∧
       ((c2run 5).1.writes.map List.length) = [40]) := by
  decide

/-- C2 amended: the threshold test is `len ≥ maxPacketSize`, so the
fourth metric (which makes the buffer exactly 40 bytes) triggers exactly
one flush; the synchronous flush stops at the pre-append boundary
(`lastSafeLen = 30`), so the flushed write contains exactly the first
three complete lines, none split; the fourth line is retained compacted
to the slot front and the slot is released while the active index moves
to the other slot; the fifth metric triggers no further flush and is
buffered in the other slot. -/

theorem c2_amended :
    (c2run 3).1.writes = [] ∧
    (c2run 4).1.writes = [c2line ++ c2line ++ c2line] ∧
    ((c2run 4).1.bufs 0).data = c2line ∧
    ((c2run 4).1.bufs 0).locked = LockSt.unlocked ∧
    (c2run 4).1.activeBuf = 1 ∧
    (c2run 5).1.writes = [c2line ++ c2line ++ c2line] ∧
    ((c2run 5).1.bufs 1).data = c2line ∧
    ((c2run 5).1.bufs 1).locked = LockSt.unlocked := by
  decide

/-- C5 counterexample: after `Close()` on a non-muted client, `Count`
still enqueues a metric (the queue grows from empty to one element) and
`Unique` still appends bytes to the connection buffer — sends after
`Close` are not no-ops. -/

theorem c5_counterexample :
    (clientCount false [] [] (clientClose false c5conn) ['b'] (Value.vInt 1)).q.length = 1 ∧
    (clientClose false c5conn).q.length = 0 ∧
    (clientUnique false [] [] (clientClose false c5conn) ['b'] ['4', '2']).buf =
      ['b', ':', '4', '2', '|', 's', '\n'] ∧
    (clientClose false c5conn).buf = [] := by
  decide

/-- C5 amended: `Close()` on a non-muted client only sets the `closed`
flag. A subsequent `Count` on the client (or any clone sharing the
connection) returns without error and performs no direct buffer or
transport operation, but it does enqueue the metric record (dropping
the two oldest entries when the queue is full); a subsequent `Unique`
appends the encoded line to the shared wire buffer. Neither operation
is a guaranteed no-op, and a pending ticker drain may still transmit
what they enqueue. -/

theorem c5_amended (c : QConn) (bucket pfx tags : List Char) (v : Value)
    (sval : List Char) (hclosed : c.closed = true)
    (hq : c.q.length < c.maxQueued) :
    (clientCount false pfx tags c bucket v).q =
      c.q ++ [{ mtype := MType.COUNT, bucket := bucket, pfx := pfx,
                tags := tags, value := v, rate := rate1 }] ∧
    (clientCount false pfx tags c bucket v).buf = c.buf ∧
    (clientCount false pfx tags c bucket v).writes = c.writes ∧
    (clientCount false pfx tags c bucket v).closed = true ∧
    (clientUnique false pfx tags c bucket sval).buf =
      uniqueBytes c.tagFormat pfx bucket sval tags c.buf ∧
    (clientUnique false pfx tags c bucket sval).writes = c.writes ∧
    (clientClose false c).closed = true := by
  refine ⟨?_, ?_, ?_, ?_, ?_, ?_, ?_⟩ <;>
    simp [clientCount, clientUnique, clientClose, QConn.put, qPut, hq, hclosed]

/-- C5 amended, witness: the closed state with an empty queue. -/

theorem c5_amended_witness :
    ((clientClose false c5conn).closed = true ∧
      (clientClose false c5conn).q.length < (clientClose false c5conn).maxQueued) ∧
    (clientCount false [] [] (clientClose false c5conn) ['b'] (Value.vInt 1)).buf =
      (clientClose false c5conn).buf :=
  ⟨⟨by decide, by decide⟩,
    (c5_amended (clientClose false c5conn) ['b'] [] [] (Value.vInt 1) []
      (by decide) (by decide)).2.1⟩

theorem dstep_ownerInv (s s' : DSys) (hstep : DStep s s') (hI : OwnerInv s) :
    OwnerInv s' := by
  cases hstep with
  | lock t h =>
    intro i
    by_cases hi : i = s.active <;>
      simp [lockEffect, DSys.setSlot, hi]
    exact hI i
  | appendRelease t i0 lines hst hown hwf hlen =>
    intro i
    by_cases hi : i = i0 <;>
      simp [appendReleaseEffect, DSys.setSlot, hi]
    exact hI i
  | appendSwitch t i0 lines hst hown hwf hlen =>
    intro i
    by_cases hi : i = i0 <;>
      simp [appendSwitchEffect, hi]
    exact hI i
  | switchUnlocked t h =>
    intro i
    by_cases hi : i = s.active <;>
      simp [switchUnlockedEffect, hi]
    exact hI i
  | handoff t u i0 hst hown =>
    intro i
    by_cases hi : i = i0 <;>
      simp [handoffEffect, DSys.setSlot, hi]
    · rw [hst]; simp
    · exact hI i
  | flushStep t i0 k hst hown hk =>
    intro i
    by_cases hi : i = i0 <;>
      simp [flushEffect, hi]
    exact hI i

theorem dreach_ownerInv (mp : Nat) (s : DSys) (h : DReach mp s) : OwnerInv s := by
  induction h with
  | refl => intro i; simp [dInit]
  | tail _ hstep ih => exact dstep_ownerInv _ _ hstep ih

theorem dstep_streamInv (s s' : DSys) (hstep : DStep s s') (hI : StreamInv s) :
    StreamInv s' := by
  obtain ⟨h1, h2, h3, h4⟩ := hI
  cases hstep with
  | lock t h =>
    refine ⟨fun i => ?_, fun i => ?_, h3, fun i => ?_⟩ <;>
      by_cases hi : i = s.active <;>
      simp [lockEffect, DSys.setSlot, hi] <;>
      first
        | exact h1 i | exact h2 i | exact h4 i
        | exact h1 s.active | exact h2 s.active | exact h4 s.active
  | appendRelease t i0 lines hst hown hwf hlen =>
    refine ⟨fun i => ?_, fun i => ?_, h3, fun i => ?_⟩ <;>
      by_cases hi : i = i0 <;>
      simp [appendReleaseEffect, DSys.setSlot, hi] <;>
      first
        | exact h1 i | exact h2 i | exact h4 i | skip
    · rw [h1 i0, List.append_assoc]
    · exact h2 i0
    · intro l hl
      rcases hl with hl | hl
      · exact h4 i0 l hl
      · exact hwf l hl
  | appendSwitch t i0 lines hst hown hwf hlen =>
    refine ⟨fun i => ?_, fun i => ?_, h3, fun i => ?_⟩ <;>
      by_cases hi : i = i0 <;>
      simp [appendSwitchEffect, hi] <;>
      first
        | exact h1 i | exact h2 i | exact h4 i | skip
    · rw [h1 i0, List.append_assoc]
    · exact h2 i0
    · intro l hl
      rcases hl with hl | hl
      · exact h4 i0 l hl
      · exact hwf l hl
  | switchUnlocked t h =>
    refine ⟨fun i => ?_, fun i => ?_, h3, fun i => ?_⟩ <;>
      by_cases hi : i = s.active <;>
      simp [switchUnlockedEffect, hi] <;>
      first
        | exact h1 i | exact h2 i | exact h4 i
        | exact h1 s.active | exact h2 s.active | exact h4 s.active
  | handoff t u i0 hst hown =>
    refine ⟨fun i => ?_, fun i => ?_, h3, fun i => ?_⟩ <;>
      by_cases hi : i = i0 <;>
      simp [handoffEffect, DSys.setSlot, hi] <;>
      first
        | exact h1 i | exact h2 i | exact h4 i
        | exact h1 i0 | exact h2 i0 | exact h4 i0
  | flushStep t i0 k hst hown hk =>
    refine ⟨fun i => ?_, fun i => ?_, ?_, fun i => ?_⟩
    · by_cases hi : i = i0 <;> simp [flushEffect, hi]
      · rw [h1 i0]
      · exact h1 i
    · by_cases hi : i = i0 <;> simp [flushEffect, hi]
      · exact h2 i0
      · exact (h2 i).trans (List.sublist_append_left _ _)
    · intro l hl
      simp [flushEffect] at hl
      rcases hl with hl | hl
      · exact h3 l hl
      · exact h4 i0 l (List.mem_of_mem_take hl)
    · by_cases hi : i = i0 <;> simp [flushEffect, hi]
      · intro l hl
        exact h4 i0 l (List.mem_of_mem_drop hl)
      · exact h4 i

theorem dreach_streamInv (mp : Nat) (s : DSys) (h : DReach mp s) :
    StreamInv s := by
  induction h with
  | refl => refine ⟨fun i => rfl, fun i => ?_, by simp [dInit], by simp [dInit]⟩
            simp [dInit]
  | tail _ hstep ih => exact dstep_streamInv _ _ hstep ih

/-- C8 counterexample: a reachable interleaving (producer fills slot 0;
the timer rotation claims slot 1 before slot 0 is flushed) in which both
slots are in `NEEDS_FLUSH` and the active index points at a
`NEEDS_FLUSH` slot in a stable state, well beyond the rotation step that
accompanied entering `NEEDS_FLUSH` — it stays there until a flush
completes. -/

theorem c8_counterexample :
    DReach 1 c8s3 ∧
    (c8s3.slots c8s3.active).st = LockSt.needFlush ∧
    (c8s3.slots (nextBuf c8s3.active)).st = LockSt.needFlush := by
  refine ⟨?_, by decide, by decide⟩
  have h1 : DStep (dInit 1) c8s1 := DStep.lock _ 1 (by decide)
  have h2 : DStep c8s1 c8s2 :=
    DStep.appendSwitch _ 1 0 [['a']] (by decide) (by decide) (by decide) (by decide)
  have h3 : DStep c8s2 c8s3 := DStep.switchUnlocked _ 2 (by decide)
  exact Relation.ReflTransGen.head h1
    (Relation.ReflTransGen.head h2
      (Relation.ReflTransGen.head h3 Relation.ReflTransGen.refl))

/-- C8 amended: in every state reachable by any interleaving of the slot
state-machine steps, each slot in `LOCKED_FOR_WRITE` or `NEEDS_FLUSH`
has exactly one owner — the winner of the CAS into that state (possibly
handed to the scheduler through the flush channel) — and an unlocked
slot has none. The second half of the original claim is dropped: the
active index can point at a `NEEDS_FLUSH` slot for an extended period
when both slots need flushing (see the counterexample). -/

theorem c8_amended (mp : Nat) (s : DSys) (h : DReach mp s) :
    (∀ i, (s.slots i).st = LockSt.unlocked ↔ (s.slots i).owner = Option.none) ∧
    (∀ i, (s.slots i).st ≠ LockSt.unlocked →
      ∃ t, (s.slots i).owner = some t ∧
        ∀ u, (s.slots i).owner = some u → u = t) := by
  have hI := dreach_ownerInv mp s h
  refine ⟨hI, fun i hne => ?_⟩
  cases how : (s.slots i).owner with
  | none => exact absurd ((hI i).mpr how) hne
  | some t =>
    exact ⟨t, rfl, fun u hu => (Option.some.inj hu).symm⟩

/-- C8 amended, witness: the owner consistency evaluated on the state
after one winning lock CAS. -/

theorem c8_amended_witness :
    DReach 1 (lockEffect (dInit 1) 1) ∧
    (∀ i, ((lockEffect (dInit 1) 1).slots i).st = LockSt.unlocked ↔
      ((lockEffect (dInit 1) 1).slots i).owner = Option.none) :=
  have hr : DReach 1 (lockEffect (dInit 1) 1) :=
    Relation.ReflTransGen.head (DStep.lock _ 1 (by decide))
      Relation.ReflTransGen.refl
  ⟨hr, (c8_amended 1 _ hr).1⟩

/-- C10: under any interleaving of any number of producers with the
flusher (modelled by reachability in the slot state machine, transport
writes succeeding), no accepted metric is lost — every line ever
appended to a slot is either in that slot's flushed subsequence of the
transmitted stream or still buffered in the slot, in order — and the
transmitted byte stream consists of complete well-formed metric lines:
splitting the transmitted bytes at every `\n` recovers exactly the
flushed lines, so every `\n` terminates exactly one complete metric and
no metric is interleaved with or split across another. -/

theorem c10_no_loss_no_split (mp : Nat) (s : DSys) (h : DReach mp s) :
    (∀ i, (s.slots i).log = (s.slots i).flushed ++ (s.slots i).data) ∧
    (∀ i, List.Sublist (s.slots i).flushed s.stream) ∧
    (∀ l ∈ s.stream, WFb l) ∧
    splitLines (linesBytes s.stream) = s.stream := by
  obtain ⟨h1, h2, h3, h4⟩ := dreach_streamInv mp s h
  exact ⟨h1, h2, h3, splitLines_linesBytes _ (fun l hl => (h3 l hl).2)⟩

/-- C10 witness: the conservation and split-integrity conclusions
evaluated on a concrete three-step trace (lock, append-and-rotate,
flush) whose stream holds one line. -/

theorem c10_witness :
    DReach 1 (flushEffect (appendSwitchEffect (lockEffect (dInit 1) 5) 5 0 [['b']]) 0 1) ∧
    splitLines (linesBytes
      (flushEffect (appendSwitchEffect (lockEffect (dInit 1) 5) 5 0 [['b']]) 0 1).stream) =
      (flushEffect (appendSwitchEffect (lockEffect (dInit 1) 5) 5 0 [['b']]) 0 1).stream :=
  have hr : DReach 1
      (flushEffect (appendSwitchEffect (lockEffect (dInit 1) 5) 5 0 [['b']]) 0 1) :=
    Relation.ReflTransGen.head (DStep.lock _ 5 (by decide))
      (Relation.ReflTransGen.head
        (DStep.appendSwitch _ 5 0 [['b']] (by decide) (by decide) (by decide) (by decide))
        (Relation.ReflTransGen.head
          (DStep.flushStep _ 5 0 1 (by decide) (by decide) (by decide))
          Relation.ReflTransGen.refl))
  ⟨hr, (c10_no_loss_no_split 1 _ hr).2.2.2⟩

end Statsd

